import Mathlib

/-!
Shallow embedding of the pagination/cursor core of the go-elastic-w-pagination
repository: the response-decoding pipeline of `es.Client.Load`, its query
construction, the two pagination drivers of the main package, and the JSON wire
form of the document type, together with theorems settling the specified
properties.
-/

namespace GoElastic

/-- Generic JSON tree: the model of the Go `map[string]any` / `[]any` /
`float64` / `string` values produced by `jsoniter` decoding in `Load`
(src/es/es.go:195).  JSON numbers are modelled as rationals; Go decodes them
into `float64`, and the code only stores these values and compares them with
zero, so no floating-point rounding behaviour is involved. -/
inductive Json where
  | null
  | bool (b : Bool)
  | num (q : ℚ)
  | str (s : String)
  | arr (xs : List Json)
  | obj (fields : List (String × Json))

/-- Go map indexing `m[k]` on a decoded JSON object: a missing key yields the
zero value (`nil` interface), modelled as `Json.null`. -/
def mget (fields : List (String × Json)) (k : String) : Json :=
  match fields.lookup k with
  | some v => v
  | none => Json.null

/-- Go type assertion `v.(map[string]interface{})`: succeeds exactly on objects,
panics otherwise. -/
def asObj : Json → Option (List (String × Json))
  | .obj f => some f
  | _ => none

/-- Go type assertion `v.([]interface{})`: succeeds exactly on arrays. -/
def asArr : Json → Option (List Json)
  | .arr a => some a
  | _ => none

/-- Go type assertion `v.(float64)`: succeeds exactly on numbers. -/
def asNum : Json → Option ℚ
  | .num q => some q
  | _ => none

/-- Go conversion `int64(f)` for `f float64` (src/es/es.go:206): truncation
toward zero. -/
def truncQ (q : ℚ) : ℤ := q.num.tdiv q.den

/-- Wall-clock time as carried by the RFC 3339 wire form of Go `time.Time`:
calendar components, nanoseconds, and the UTC offset in minutes.  The monotonic
clock reading and the location name are not part of the wire form. -/
structure GoTime where
  year : ℕ
  month : ℕ
  day : ℕ
  hour : ℕ
  minute : ℕ
  second : ℕ
  nanos : ℕ
  offsetMin : ℤ
deriving DecidableEq, Repr

/-- The Go zero `time.Time`: January 1, year 1, 00:00:00 UTC. -/
def GoTime.goZero : GoTime := ⟨1, 1, 1, 0, 0, 0, 0, 0⟩

/-- Component ranges under which Go can marshal the time to RFC 3339 and parse
it back (`time.Time.MarshalJSON` requires a year in [0, 9999]; the offset is at
most twenty-three hours and fifty-nine minutes in magnitude). -/
@[reducible] def GoTime.valid (t : GoTime) : Prop :=
  t.year ≤ 9999 ∧ 1 ≤ t.month ∧ t.month ≤ 12 ∧ 1 ≤ t.day ∧ t.day ≤ 31 ∧
  t.hour ≤ 23 ∧ t.minute ≤ 59 ∧ t.second ≤ 59 ∧ t.nanos < 1000000000 ∧
  t.offsetMin.natAbs ≤ 1439

/-- Decimal digits of `n`, zero-padded on the left to width `w` (the low `w`
digits when `n` has more). -/
def toDigitsPad : ℕ → ℕ → List Char
  | 0, _ => []
  | w + 1, n => toDigitsPad w (n / 10) ++ [Char.ofNat (48 + n % 10)]

/-- Value of a digit string, folded left onto an accumulator. -/
def digitsValFrom (a : ℕ) (l : List Char) : ℕ :=
  l.foldl (fun b c => b * 10 + (c.toNat - 48)) a

/-- Read exactly `w` decimal digits from the front of the character list,
accumulating their value onto `a`. -/
def readFixed : ℕ → ℕ → List Char → Option (ℕ × List Char)
  | 0, a, cs => some (a, cs)
  | w + 1, a, c :: cs =>
    if c.isDigit then readFixed w (a * 10 + (c.toNat - 48)) cs else none
  | _ + 1, _, [] => none

/-- Consume one expected character. -/
def expectChar (c : Char) : List Char → Option (List Char)
  | d :: cs => if d = c then some cs else none
  | [] => none

/-- Remove trailing `'0'` characters. -/
def dropTrailingZeros (l : List Char) : List Char :=
  (l.reverse.dropWhile (fun c => c = '0')).reverse

/-- Fractional-second characters of the RFC 3339 Nano layout `.999999999`: no
output for zero nanoseconds, otherwise a dot followed by the nine nanosecond
digits with trailing zeros removed. -/
def fracChars (ns : ℕ) : List Char :=
  if ns = 0 then [] else '.' :: dropTrailingZeros (toDigitsPad 9 ns)

/-- Numeric-offset characters of the RFC 3339 layout `Z07:00`. -/
def offsetChars (o : ℤ) : List Char :=
  if o = 0 then ['Z']
  else (if o < 0 then '-' else '+') ::
    (toDigitsPad 2 (o.natAbs / 60) ++ ':' :: toDigitsPad 2 (o.natAbs % 60))

/-- Characters of the RFC 3339 Nano rendering of a time, as produced by
Go `time.Time.MarshalJSON` (layout `2006-01-02T15:04:05.999999999Z07:00`). -/
def formatChars (t : GoTime) : List Char :=
  toDigitsPad 4 t.year ++ '-' ::
  (toDigitsPad 2 t.month ++ '-' ::
  (toDigitsPad 2 t.day ++ 'T' ::
  (toDigitsPad 2 t.hour ++ ':' ::
  (toDigitsPad 2 t.minute ++ ':' ::
  (toDigitsPad 2 t.second ++ (fracChars t.nanos ++ offsetChars t.offsetMin))))))

/-- RFC 3339 Nano rendering of a time as a string. -/
def formatRFC3339Nano (t : GoTime) : String := String.mk (formatChars t)

/-- Parse an optional fractional-second field: a dot followed by one to nine
digits, scaled to nanoseconds; absent fraction yields zero nanoseconds. -/
def parseFrac (cs : List Char) : Option (ℕ × List Char) :=
  match cs with
  | [] => some (0, [])
  | c :: rest =>
    if c = '.' then
      if (rest.takeWhile Char.isDigit).length = 0 ∨ 9 < (rest.takeWhile Char.isDigit).length
      then none
      else some (digitsValFrom 0 (rest.takeWhile Char.isDigit) *
                   10 ^ (9 - (rest.takeWhile Char.isDigit).length),
                 rest.dropWhile Char.isDigit)
    else some (0, cs)

/-- Parse the RFC 3339 numeric UTC offset (`Z`, or a sign and `hh:mm` with
`hh ≤ 23`, `mm ≤ 59`), in minutes. -/
def parseOffset : List Char → Option (ℤ × List Char)
  | [] => none
  | c :: cs =>
    if c = 'Z' then some (0, cs)
    else if c = '+' ∨ c = '-' then
      (readFixed 2 0 cs).bind fun ph =>
      (expectChar ':' ph.2).bind fun r =>
      (readFixed 2 0 r).bind fun pm =>
      if ph.1 ≤ 23 ∧ pm.1 ≤ 59 then
        if c = '-' then some (-((ph.1 * 60 + pm.1 : ℕ) : ℤ), pm.2)
        else some (((ph.1 * 60 + pm.1 : ℕ) : ℤ), pm.2)
      else none
    else none

/-- Parse the `2006-01-02T` date part of the RFC 3339 layout. -/
def parseDatePart (cs : List Char) : Option (ℕ × ℕ × ℕ × List Char) :=
  (readFixed 4 0 cs).bind fun py =>
  (expectChar '-' py.2).bind fun r2 =>
  (readFixed 2 0 r2).bind fun pmo =>
  (expectChar '-' pmo.2).bind fun r4 =>
  (readFixed 2 0 r4).bind fun pd =>
  (expectChar 'T' pd.2).bind fun r6 =>
  some (py.1, pmo.1, pd.1, r6)

/-- Parse the `15:04:05` clock part of the RFC 3339 layout. -/
def parseClockPart (cs : List Char) : Option (ℕ × ℕ × ℕ × List Char) :=
  (readFixed 2 0 cs).bind fun ph =>
  (expectChar ':' ph.2).bind fun r2 =>
  (readFixed 2 0 r2).bind fun pmi =>
  (expectChar ':' pmi.2).bind fun r4 =>
  (readFixed 2 0 r4).bind fun ps =>
  some (ph.1, pmi.1, ps.1, ps.2)

/-- Parse an RFC 3339 timestamp, as Go `time.Time.UnmarshalJSON` does for the
`RFC3339` layout (which also accepts an optional fractional second). -/
def parseRFC3339 (s : String) : Option GoTime :=
  (parseDatePart s.data).bind fun pdate =>
  (parseClockPart pdate.2.2.2).bind fun pclock =>
  (parseFrac pclock.2.2.2).bind fun pns =>
  (parseOffset pns.2).bind fun poff =>
  if poff.2 = [] ∧ 1 ≤ pdate.2.1 ∧ pdate.2.1 ≤ 12 ∧ 1 ≤ pdate.2.2.1 ∧
     pdate.2.2.1 ≤ 31 ∧ pclock.1 ≤ 23 ∧ pclock.2.1 ≤ 59 ∧ pclock.2.2.1 ≤ 59 then
    some ⟨pdate.1, pdate.2.1, pdate.2.2.1, pclock.1, pclock.2.1, pclock.2.2.1,
          pns.1, poff.1⟩
  else none

/-- The `User` document type (src/es/es.go:37-41): numeric identifier, creation
timestamp, display name. -/
structure User where
  ID : ℤ
  CreatedAt : GoTime
  Username : String
deriving DecidableEq, Repr

/-- The `SearchResult` page type (src/es/es.go:43-47): decoded documents, the
engine-reported total-hit count, and the cursor (`LastSort`). -/
structure SearchResult where
  Users : List User
  TotalCount : ℤ
  LastSort : ℚ
deriving DecidableEq, Repr

/-- Field-by-field JSON unmarshalling of a `_source` object into `User`
(`jsoniter.Unmarshal` with standard-library semantics, src/es/es.go:233): keys
other than the three field names are ignored, a missing field keeps the zero
value, `null` is a no-op, a present field of the wrong shape is an error.  An
`ID` number must be integral; `CreatedAt` must be an RFC 3339 string. -/
def decodeUserField (k : String) (v : Json) (u : User) : Option User :=
  if k = "ID" then
    match v with
    | .null => some u
    | .num q => if q.den = 1 then some { u with ID := q.num } else none
    | _ => none
  else if k = "CreatedAt" then
    match v with
    | .null => some u
    | .str s =>
      match parseRFC3339 s with
      | some tm => some { u with CreatedAt := tm }
      | none => none
    | _ => none
  else if k = "Username" then
    match v with
    | .null => some u
    | .str s => some { u with Username := s }
    | _ => none
  else some u

/-- Fold the field decoder over the object's fields, stopping at the first
error. -/
def decodeUserFields : List (String × Json) → User → Option User
  | [], u => some u
  | (k, v) :: rest, u =>
    match decodeUserField k v u with
    | none => none
    | some u2 => decodeUserFields rest u2

/-- Decoding a `_source` object into the typed document: the re-encode of the
generic tree to bytes (`jsoniter.Marshal`, which cannot fail on tree values)
followed by `jsoniter.Unmarshal` into `User`, starting from the zero `User`. -/
def decodeUserSource (fields : List (String × Json)) : Option User :=
  decodeUserFields fields ⟨0, GoTime.goZero, ""⟩

/-- The per-entry sort key as read by the loop (src/es/es.go:216):
`v.(map[string]interface{})["sort"].([]interface{})[0].(float64)`. -/
def entrySort? (v : Json) : Option ℚ :=
  (asObj v).bind fun vo =>
  (asArr (mget vo "sort")).bind fun sarr =>
  sarr.head?.bind asNum

/-- The per-entry `_source` object as asserted by the loop (src/es/es.go:222):
`v.(map[string]interface{})["_source"].(map[string]interface{})`. -/
def entrySourceObj? (v : Json) : Option (List (String × Json)) :=
  (asObj v).bind fun vo => asObj (mget vo "_source")

/-- The typed document an entry decodes to, when it decodes. -/
def entryUser? (v : Json) : Option User :=
  (entrySourceObj? v).bind decodeUserSource

/-- Outcome of the decoding closure of `Load` (src/es/es.go:204-246): either a
`SearchResult`, or a runtime panic from a failed type assertion. -/
inductive DecodeOutcome where
  | panic
  | ok (r : SearchResult)
deriving DecidableEq, Repr

/-- The `hits.hits` iteration (src/es/es.go:215-245).  Each entry: read the
sort key (panicking assertions), assert the `_source` object (panicking
assertion), then decode it into `User`; on a document-decode failure, log and
return the documents so far with the total count — and a zero `LastSort`,
since the truncation returns do not set it.  An exhausted loop returns the
documents, the total, and the last sort key seen. -/
def decodeHitsLoop (total : ℤ) : List Json → List User → ℚ → DecodeOutcome
  | [], docs, ls => .ok ⟨docs, total, ls⟩
  | v :: rest, docs, _ =>
    match asObj v with
    | none => .panic
    | some vo =>
      match asArr (mget vo "sort") with
      | none => .panic
      | some sarr =>
        match sarr.head? with
        | none => .panic
        | some s0 =>
          match asNum s0 with
          | none => .panic
          | some sv =>
            match asObj (mget vo "_source") with
            | none => .panic
            | some so =>
              match decodeUserSource so with
              | none => .ok ⟨docs, total, 0⟩
              | some doc => decodeHitsLoop total rest (docs ++ [doc]) sv

/-- The nested `hits.total.value` extraction path of the decoding closure. -/
def totalValuePath (r : List (String × Json)) : Option ℚ :=
  (asObj (mget r "hits")).bind fun ho =>
  (asObj (mget ho "total")).bind fun tobj =>
  asNum (mget tobj "value")

/-- The decoding closure of `Load` (src/es/es.go:204-246) applied to a decoded
success-response envelope: extract `hits.total.value` through unchecked type
assertions (a failed assertion panics), return the empty `SearchResult` when
the converted total is zero, otherwise assert the `hits.hits` array and run the
entry loop. -/
def decodeSearchBody (r : List (String × Json)) : DecodeOutcome :=
  match asObj (mget r "hits") with
  | none => .panic
  | some ho =>
    match asObj (mget ho "total") with
    | none => .panic
    | some tobj =>
      match asNum (mget tobj "value") with
      | none => .panic
      | some q =>
        if truncQ q = 0 then .ok ⟨[], 0, 0⟩
        else
          match asArr (mget ho "hits") with
          | none => .panic
          | some l => decodeHitsLoop (truncQ q) l [] 0

/-- A response body as seen by `jsoniter.NewDecoder(res.Body).Decode(&e)` with
`e : map[string]interface{}`: either it fails to decode into a map, or it
yields the top-level object fields. -/
inductive Body where
  | invalid
  | valid (fields : List (String × Json))

/-- The error returns of `Load`, in source order (src/es/es.go:132, 152/166,
189, 192, 201). -/
inductive LoadErr where
  | encodeQuery
  | transport
  | parseFailureBody
  | engineFailure
  | parseResponseBody
deriving DecidableEq, Repr

/-- What a call of `Load` does: returns the Go pair `(SearchResult, error)`, or
panics inside the decoding closure. -/
inductive LoadOutcome where
  | panic
  | ret (r : SearchResult) (e : Option LoadErr)
deriving DecidableEq, Repr

/-- The externally-determined events of one `Load` call: whether the query
encoding fails, whether the transport call fails, whether the engine reports a
non-success status, and the response body. -/
structure LoadEnv where
  encodeFails : Bool
  transportFails : Bool
  statusIsError : Bool
  body : Body

/-- `es.Client.Load` (src/es/es.go:107-249) as a function of its external
events: every error path returns the zero `SearchResult` together with the
error; a success status leads into the decoding closure. -/
def Load (env : LoadEnv) : LoadOutcome :=
  if env.encodeFails then .ret ⟨[], 0, 0⟩ (some .encodeQuery)
  else if env.transportFails then .ret ⟨[], 0, 0⟩ (some .transport)
  else if env.statusIsError then
    match env.body with
    | .invalid => .ret ⟨[], 0, 0⟩ (some .parseFailureBody)
    | .valid _ => .ret ⟨[], 0, 0⟩ (some .engineFailure)
  else
    match env.body with
    | .invalid => .ret ⟨[], 0, 0⟩ (some .parseResponseBody)
    | .valid r =>
      match decodeSearchBody r with
      | .panic => .panic
      | .ok res => .ret res none

/-- The query body built by `Load` (src/es/es.go:114-128): a `match_all` query,
an ascending sort on `ID`, and — exactly when the cursor is non-zero — a
`search_after` clause seeded with the cursor. -/
def buildLoadQuery (cursor : ℚ) : List (String × Json) :=
  let base : List (String × Json) :=
    [("query", .obj [("match_all", .obj [])]),
     ("sort", .arr [.obj [("ID", .obj [("order", .str "asc")])]])]
  if cursor ≠ 0 then base ++ [("search_after", .arr [.num cursor])] else base

/-- The search request `Load` issues: target index, query body, and the
paging parameters passed through the client options. -/
structure IssuedSearch where
  index : String
  body : List (String × Json)
  fromParam : Option ℤ
  sizeParam : ℤ
  trackTotalHits : Bool

/-- Request construction of `Load` (src/es/es.go:114-168): empty index falls
back to the configured default; with a non-zero cursor the call passes no
`from` (`WithFrom` is only used on the zero-cursor branch), with a zero cursor
it passes the `from` argument. -/
def issueLoadSearch (defaultIndex index : String) (fromArg size : ℤ)
    (cursor : ℚ) : IssuedSearch :=
  let body := buildLoadQuery cursor
  let idx := if index = "" then defaultIndex else index
  if cursor ≠ 0 then ⟨idx, body, none, size, true⟩
  else ⟨idx, body, some fromArg, size, true⟩

/-- The offset-strategy loop of `loadSimplePagination` (src/unnamed/part_000:
42-59): `for i := from; i < bound; i += size`, one `Load` call per iteration
appending the returned documents; a fetch error is fatal to the process
(`log.Fatalf`), modelled by `none`.  The source fixes `from = 0`, `size = 10`,
`bound = 100`; the constants are kept as parameters.  Returns the driver
outcome paired with the list of offsets actually requested.  (With `size = 0`
the source loop would never terminate; the model stops, and every statement
about it assumes `0 < size`.) -/
def loadSimplePaginationLoop (fetch : ℕ → Option (List User)) (size bound i : ℕ)
    (acc : List User) : Option (List User) × List ℕ :=
  if _h : 0 < size ∧ i < bound then
    match fetch i with
    | none => (none, [i])
    | some users =>
      let r := loadSimplePaginationLoop fetch size bound (i + size) (acc ++ users)
      (r.1, i :: r.2)
  else (some acc, [])
termination_by bound - i
decreasing_by omega

/-- `loadSimplePagination` with the source's constants. -/
def loadSimplePagination (fetch : ℕ → Option (List User)) :
    Option (List User) × List ℕ :=
  loadSimplePaginationLoop fetch 10 100 0 []

/-- The offsets the loop requests, by the same recursion. -/
def offsFrom (size bound i : ℕ) : List ℕ :=
  if _h : 0 < size ∧ i < bound then i :: offsFrom size bound (i + size) else []
termination_by bound - i
decreasing_by omega

/-- The iteration loop of `cursorPaginate` (src/unnamed/part_000:89-99), with
the remaining iteration count explicit: each iteration fetches with `from = 0`,
`size = 10` and the current cursor; an error is fatal (`log.Fatalf`, modelled
by `none`); otherwise the cursor is replaced by the page's `LastSort` and the
documents are appended.  The second component records the fetch arguments
`(from, size, cursor)` actually issued. -/
def cursorLoop (loadO : ℕ → ℕ → ℚ → SearchResult × Bool) :
    ℕ → ℚ → List User → Option (List User) × List (ℕ × ℕ × ℚ)
  | 0, _, acc => (some acc, [])
  | n + 1, ls, acc =>
    let r := loadO 0 10 ls
    if r.2 then (none, [(0, 10, ls)])
    else
      let rest := cursorLoop loadO n r.1.LastSort (acc ++ r.1.Users)
      (rest.1, (0, 10, ls) :: rest.2)

/-- `cursorPaginate` (src/unnamed/part_000:79-101): the initial fetch uses the
unset cursor and its error is discarded (`initRes, _ := client.Load(...)`);
the loop then runs nine further iterations chaining cursors.  Returns the
accumulated documents (or `none` when the process was terminated by a loop
error) paired with the trace of fetch arguments issued. -/
def cursorPaginate (loadO : ℕ → ℕ → ℚ → SearchResult × Bool) :
    Option (List User) × List (ℕ × ℕ × ℚ) :=
  let init := loadO 0 10 0
  let rest := cursorLoop loadO 9 init.1.LastSort init.1.Users
  (rest.1, (0, 10, 0) :: rest.2)

/-- The JSON wire form of a `User` produced by `jsoniter.Marshal` in `Store`
(src/es/es.go:264): an object with the field names as keys and the timestamp
in RFC 3339 Nano form. -/
def encodeUser (u : User) : List (String × Json) :=
  [("ID", .num (u.ID : ℚ)),
   ("CreatedAt", .str (formatRFC3339Nano u.CreatedAt)),
   ("Username", .str u.Username)]

/-- The final value of the loop's `lastSort` variable over a list of entries:
each entry whose sort key reads successfully overwrites the accumulator. -/
def lastSortAux (ls : ℚ) (l : List Json) : ℚ :=
  l.foldl (fun a v => (entrySort? v).getD a) ls

/-- A fetch oracle whose every call reports an error together with the zero
`SearchResult` (the pair `Load` returns on its error paths). -/
def alwaysErrLoad : ℕ → ℕ → ℚ → SearchResult × Bool :=
  fun _ _ _ => (⟨[], 0, 0⟩, true)

/-- A `hits.hits` entry with sort key 1 whose `_source` object fails the typed
decode (its `ID` is a string). -/
def badSourceEntry : Json :=
  .obj [("sort", .arr [.num 1]), ("_source", .obj [("ID", .str "zz")])]

/-- A `hits.hits` entry with sort key 2 whose `_source` fails the typed decode. -/
def badEntryLast : Json :=
  .obj [("sort", .arr [.num 2]), ("_source", .obj [("ID", .str "zz")])]

/-- A fully decodable `hits.hits` entry with sort key 1. -/
def goodEntryA : Json :=
  .obj [("sort", .arr [.num 1]), ("_source", .obj [("Username", .str "a")])]

/-- A fully decodable `hits.hits` entry with sort key 2. -/
def goodEntryB : Json :=
  .obj [("sort", .arr [.num 2]), ("_source", .obj [("Username", .str "b")])]

/-- A success-response envelope with the given `hits.total.value` and
`hits.hits` entries. -/
def mkEnvelope (total : ℚ) (hits : List Json) : List (String × Json) :=
  [("hits", .obj [("total", .obj [("value", .num total)]), ("hits", .arr hits)])]

/-! ### Digit-string lemmas for the RFC 3339 round trip -/

lemma toDigitsPad_length (w : ℕ) : ∀ n, (toDigitsPad w n).length = w := by
  induction w with
  | zero => intro n; rfl
  | succ w ih => intro n; simp [toDigitsPad, ih]

lemma digit_char_facts :
    ∀ m < 10, (Char.ofNat (48 + m)).isDigit = true ∧
      (Char.ofNat (48 + m)).toNat - 48 = m := by decide

lemma toDigitsPad_isDigit (w : ℕ) : ∀ n, ∀ c ∈ toDigitsPad w n, c.isDigit = true := by
  induction w with
  | zero => intro n c hc; simp [toDigitsPad] at hc
  | succ w ih =>
    intro n c hc
    simp only [toDigitsPad, List.mem_append, List.mem_singleton] at hc
    rcases hc with h | h
    · exact ih _ c h
    · subst h
      exact (digit_char_facts (n % 10) (Nat.mod_lt _ (by norm_num))).1

lemma digitsValFrom_cons (a : ℕ) (c : Char) (l : List Char) :
    digitsValFrom a (c :: l) = digitsValFrom (a * 10 + (c.toNat - 48)) l := rfl

lemma digitsValFrom_append (a : ℕ) (l1 l2 : List Char) :
    digitsValFrom a (l1 ++ l2) = digitsValFrom (digitsValFrom a l1) l2 :=
  List.foldl_append _ _ _ _

lemma mod_pow_succ_ten (w n : ℕ) :
    n % 10 ^ (w + 1) = (n / 10 % 10 ^ w) * 10 + n % 10 := by
  have hp : (0:ℕ) < 10 ^ w := pow_pos (by norm_num) w
  have hpow : (10:ℕ) ^ (w + 1) = 10 ^ w * 10 := pow_succ 10 w
  have key : n = 10 ^ (w + 1) * (n / 10 / 10 ^ w) +
      ((n / 10 % 10 ^ w) * 10 + n % 10) := by
    conv_lhs => rw [← Nat.div_add_mod n 10, ← Nat.div_add_mod (n / 10) (10 ^ w)]
    rw [hpow]; ring
  have hbound : (n / 10 % 10 ^ w) * 10 + n % 10 < 10 ^ (w + 1) := by
    have h1 : n / 10 % 10 ^ w < 10 ^ w := Nat.mod_lt _ hp
    have h2 : n % 10 < 10 := Nat.mod_lt _ (by norm_num)
    rw [hpow]; omega
  calc n % 10 ^ (w + 1)
      = (10 ^ (w + 1) * (n / 10 / 10 ^ w) +
          ((n / 10 % 10 ^ w) * 10 + n % 10)) % 10 ^ (w + 1) := by rw [← key]
    _ = ((n / 10 % 10 ^ w) * 10 + n % 10) % 10 ^ (w + 1) := Nat.mul_add_mod _ _ _
    _ = (n / 10 % 10 ^ w) * 10 + n % 10 := Nat.mod_eq_of_lt hbound

lemma digitsValFrom_toDigitsPad (w : ℕ) :
    ∀ a n, digitsValFrom a (toDigitsPad w n) = a * 10 ^ w + n % 10 ^ w := by
  induction w with
  | zero => intro a n; simp [toDigitsPad, digitsValFrom, Nat.mod_one]
  | succ w ih =>
    intro a n
    rw [toDigitsPad, digitsValFrom_append, ih]
    have hstep : digitsValFrom (a * 10 ^ w + n / 10 % 10 ^ w)
        [Char.ofNat (48 + n % 10)] =
        (a * 10 ^ w + n / 10 % 10 ^ w) * 10 +
          ((Char.ofNat (48 + n % 10)).toNat - 48) := rfl
    rw [hstep, (digit_char_facts (n % 10) (Nat.mod_lt _ (by norm_num))).2,
        mod_pow_succ_ten]
    ring

lemma readFixed_digits : ∀ (s rest : List Char) (a : ℕ),
    (∀ c ∈ s, c.isDigit = true) →
    readFixed s.length a (s ++ rest) = some (digitsValFrom a s, rest) := by
  intro s
  induction s with
  | nil => intro rest a _; rfl
  | cons c t ih =>
    intro rest a h
    have hc : c.isDigit = true := h c (by simp)
    simp only [List.length_cons, List.cons_append]
    rw [readFixed, if_pos hc]
    exact ih rest _ (fun d hd => h d (by simp [hd]))

lemma readFixed_pad0 (w n : ℕ) (rest : List Char) (h : n < 10 ^ w) :
    readFixed w 0 (toDigitsPad w n ++ rest) = some (n, rest) := by
  have h1 := readFixed_digits (toDigitsPad w n) rest 0 (toDigitsPad_isDigit w n)
  rw [toDigitsPad_length] at h1
  rw [h1, digitsValFrom_toDigitsPad, Nat.mod_eq_of_lt h, Nat.zero_mul, Nat.zero_add]

lemma expectChar_cons (c : Char) (cs : List Char) :
    expectChar c (c :: cs) = some cs := by
  simp [expectChar]

lemma readFixed_pad0_nil (w n : ℕ) (h : n < 10 ^ w) :
    readFixed w 0 (toDigitsPad w n) = some (n, []) := by
  have h1 := readFixed_pad0 w n [] h
  rwa [List.append_nil] at h1

lemma digitsValFrom_replicate (k : ℕ) : ∀ a, digitsValFrom a (List.replicate k '0') = a * 10 ^ k := by
  induction k with
  | zero => intro a; simp [digitsValFrom]
  | succ k ih =>
    intro a
    rw [List.replicate_succ, digitsValFrom_cons, ih]
    have h0 : '0'.toNat - 48 = 0 := by decide
    rw [h0, pow_succ]
    ring

lemma takeWhile_append_of_all {p : Char → Bool} (xs ys : List Char)
    (hx : ∀ x ∈ xs, p x = true) (hy : ∀ c cs, ys = c :: cs → p c = false) :
    (xs ++ ys).takeWhile p = xs ∧ (xs ++ ys).dropWhile p = ys := by
  induction xs with
  | nil =>
    simp only [List.nil_append]
    cases ys with
    | nil => simp
    | cons c cs =>
      have h := hy c cs rfl
      exact ⟨by rw [List.takeWhile_cons, h]; simp,
             by rw [List.dropWhile_cons, h]; simp⟩
  | cons x xt ih =>
    have hx1 : p x = true := hx x (by simp)
    obtain ⟨h1, h2⟩ := ih (fun z hz => hx z (by simp [hz]))
    constructor
    · rw [List.cons_append, List.takeWhile_cons, hx1]
      simp [h1]
    · rw [List.cons_append, List.dropWhile_cons, hx1]
      simp [h2]

lemma dropTrailingZeros_decomp (l : List Char) :
    ∃ k, l = dropTrailingZeros l ++ List.replicate k '0' := by
  refine ⟨(l.reverse.takeWhile (fun c => decide (c = '0'))).length, ?_⟩
  have hrep : l.reverse.takeWhile (fun c => decide (c = '0')) =
      List.replicate (l.reverse.takeWhile (fun c => decide (c = '0'))).length '0' := by
    rw [List.eq_replicate_iff]
    refine ⟨rfl, fun b hb => ?_⟩
    have := List.mem_takeWhile_imp hb
    exact of_decide_eq_true this
  conv_lhs => rw [← List.reverse_reverse l,
    ← List.takeWhile_append_dropWhile (fun c => decide (c = '0')) l.reverse]
  rw [List.reverse_append]
  unfold dropTrailingZeros
  rw [hrep, List.reverse_replicate, List.length_replicate]

lemma parseFrac_exact (ns : ℕ) (h9 : ns < 10 ^ 9) (rest : List Char)
    (hr : ∀ c cs, rest = c :: cs → c.isDigit = false ∧ c ≠ '.') :
    parseFrac (fracChars ns ++ rest) = some (ns, rest) := by
  by_cases h0 : ns = 0
  · subst h0
    rw [fracChars, if_pos rfl, List.nil_append]
    cases rest with
    | nil => rfl
    | cons c cs =>
      obtain ⟨-, hdot⟩ := hr c cs rfl
      rw [parseFrac, if_neg hdot]
  · rw [fracChars, if_neg h0, List.cons_append, parseFrac, if_pos rfl]
    obtain ⟨k, hdecomp⟩ := dropTrailingZeros_decomp (toDigitsPad 9 ns)
    have hlen9 : (toDigitsPad 9 ns).length = 9 := toDigitsPad_length 9 ns
    have hlensum : (dropTrailingZeros (toDigitsPad 9 ns)).length + k = 9 := by
      rw [hdecomp, List.length_append, List.length_replicate] at hlen9
      exact hlen9
    have hdigits : ∀ c ∈ dropTrailingZeros (toDigitsPad 9 ns), c.isDigit = true := by
      intro c hc
      refine toDigitsPad_isDigit 9 ns c ?_
      rw [hdecomp, List.mem_append]
      exact Or.inl hc
    have hvalfull : digitsValFrom 0 (toDigitsPad 9 ns) = ns := by
      rw [digitsValFrom_toDigitsPad, Nat.mod_eq_of_lt h9, Nat.zero_mul, Nat.zero_add]
    have hval : digitsValFrom 0 (dropTrailingZeros (toDigitsPad 9 ns)) * 10 ^ k = ns := by
      conv_rhs => rw [← hvalfull, hdecomp]
      rw [digitsValFrom_append, digitsValFrom_replicate]
    have hne : dropTrailingZeros (toDigitsPad 9 ns) ≠ [] := by
      intro hcontra
      rw [hcontra] at hval
      simp [digitsValFrom] at hval
      exact h0 hval.symm
    obtain ⟨htake, hdrop⟩ := takeWhile_append_of_all
      (dropTrailingZeros (toDigitsPad 9 ns)) rest hdigits
      (fun c cs h => (hr c cs h).1)
    rw [htake, hdrop]
    have hlpos : 0 < (dropTrailingZeros (toDigitsPad 9 ns)).length :=
      List.length_pos.mpr hne
    rw [if_neg (by omega)]
    have hk : 9 - (dropTrailingZeros (toDigitsPad 9 ns)).length = k := by omega
    rw [hk, hval]

lemma offsetChars_head (o : ℤ) :
    ∀ c cs, offsetChars o = c :: cs → c.isDigit = false ∧ c ≠ '.' := by
  intro c cs h
  rw [offsetChars] at h
  by_cases h0 : o = 0
  · rw [if_pos h0] at h
    injection h with h1 h2
    subst h1
    decide
  · rw [if_neg h0] at h
    by_cases hneg : o < 0
    · rw [if_pos hneg] at h
      injection h with h1 h2
      subst h1
      decide
    · rw [if_neg hneg] at h
      injection h with h1 h2
      subst h1
      decide

lemma parseOffset_exact (o : ℤ) (ho : o.natAbs ≤ 1439) :
    parseOffset (offsetChars o) = some (o, []) := by
  by_cases h0 : o = 0
  · subst h0; rfl
  · rw [offsetChars, if_neg h0]
    have ha60 : o.natAbs % 60 ≤ 59 := by
      have := Nat.mod_lt o.natAbs (show 0 < 60 by norm_num)
      omega
    have hdiv : o.natAbs / 60 ≤ 23 := by
      have h1 : o.natAbs / 60 ≤ 1439 / 60 := Nat.div_le_div_right ho
      norm_num at h1
      exact h1
    have hhlt : o.natAbs / 60 < 10 ^ 2 := by omega
    have hmlt : o.natAbs % 60 < 10 ^ 2 := by omega
    have hsum : o.natAbs / 60 * 60 + o.natAbs % 60 = o.natAbs := by
      have := Nat.div_add_mod o.natAbs 60
      omega
    by_cases hneg : o < 0
    · rw [if_pos hneg, parseOffset, if_neg (by decide), if_pos (Or.inr rfl),
          readFixed_pad0 2 _ _ hhlt]
      simp only [Option.some_bind]
      rw [expectChar_cons]
      simp only [Option.some_bind]
      rw [readFixed_pad0_nil 2 _ hmlt]
      simp only [Option.some_bind]
      rw [if_pos ⟨hdiv, ha60⟩]
      have hcast : ((o.natAbs / 60 * 60 + o.natAbs % 60 : ℕ) : ℤ) = -o := by
        rw [hsum]; exact Int.ofNat_natAbs_of_nonpos (le_of_lt hneg)
      simp [hcast]
    · rw [if_neg hneg, parseOffset, if_neg (by decide), if_pos (Or.inl rfl),
          readFixed_pad0 2 _ _ hhlt]
      simp only [Option.some_bind]
      rw [expectChar_cons]
      simp only [Option.some_bind]
      rw [readFixed_pad0_nil 2 _ hmlt]
      simp only [Option.some_bind]
      rw [if_pos ⟨hdiv, ha60⟩]
      have hcast : ((o.natAbs / 60 * 60 + o.natAbs % 60 : ℕ) : ℤ) = o := by
        rw [hsum]; exact Int.natAbs_of_nonneg (le_of_not_lt hneg)
      simp [hcast]

lemma parseDatePart_pad (y mo d : ℕ) (rest : List Char)
    (hy : y < 10 ^ 4) (hmo : mo < 10 ^ 2) (hd : d < 10 ^ 2) :
    parseDatePart (toDigitsPad 4 y ++ '-' ::
      (toDigitsPad 2 mo ++ '-' :: (toDigitsPad 2 d ++ 'T' :: rest)))
      = some (y, mo, d, rest) := by
  unfold parseDatePart
  rw [readFixed_pad0 4 _ _ hy]
  simp only [Option.some_bind]
  rw [expectChar_cons]
  simp only [Option.some_bind]
  rw [readFixed_pad0 2 _ _ hmo]
  simp only [Option.some_bind]
  rw [expectChar_cons]
  simp only [Option.some_bind]
  rw [readFixed_pad0 2 _ _ hd]
  simp only [Option.some_bind]
  rw [expectChar_cons]
  simp only [Option.some_bind]

lemma parseClockPart_pad (h mi s : ℕ) (rest : List Char)
    (hh : h < 10 ^ 2) (hmi : mi < 10 ^ 2) (hs : s < 10 ^ 2) :
    parseClockPart (toDigitsPad 2 h ++ ':' ::
      (toDigitsPad 2 mi ++ ':' :: (toDigitsPad 2 s ++ rest)))
      = some (h, mi, s, rest) := by
  unfold parseClockPart
  rw [readFixed_pad0 2 _ _ hh]
  simp only [Option.some_bind]
  rw [expectChar_cons]
  simp only [Option.some_bind]
  rw [readFixed_pad0 2 _ _ hmi]
  simp only [Option.some_bind]
  rw [expectChar_cons]
  simp only [Option.some_bind]
  rw [readFixed_pad0 2 _ _ hs]
  simp only [Option.some_bind]

/-- The RFC 3339 round trip: parsing the Nano-layout rendering of a valid time
recovers the time exactly, including the nanosecond precision. -/
theorem parseRFC3339_format (t : GoTime) (hv : t.valid) :
    parseRFC3339 (formatRFC3339Nano t) = some t := by
  obtain ⟨y, mo, d, h, mi, s, ns, off⟩ := t
  obtain ⟨hy, hmo1, hmo2, hd1, hd2, hh, hmi, hs, hns, hoff⟩ := hv
  simp only at hy hmo1 hmo2 hd1 hd2 hh hmi hs hns hoff
  show parseRFC3339 (String.mk (formatChars ⟨y, mo, d, h, mi, s, ns, off⟩)) = _
  unfold parseRFC3339
  have hdata : (String.mk (formatChars ⟨y, mo, d, h, mi, s, ns, off⟩)).data =
      formatChars ⟨y, mo, d, h, mi, s, ns, off⟩ := rfl
  rw [hdata]
  unfold formatChars
  simp only
  rw [parseDatePart_pad y mo d _ (by omega) (by omega) (by omega)]
  simp only [Option.some_bind]
  rw [parseClockPart_pad h mi s _ (by omega) (by omega) (by omega)]
  simp only [Option.some_bind]
  rw [parseFrac_exact ns (by omega) _ (offsetChars_head off)]
  simp only [Option.some_bind]
  rw [parseOffset_exact off hoff]
  simp only [Option.some_bind]
  rw [if_pos (show _ ∧ _ from ⟨by trivial, hmo1, hmo2, hd1, hd2, hh, hmi, hs⟩)]

/-! ### Decoding-loop lemmas -/

lemma decodeHitsLoop_step_ok (total : ℤ) (v : Json) (rest : List Json)
    (docs : List User) (ls sv : ℚ) (u : User)
    (hsort : entrySort? v = some sv) (huser : entryUser? v = some u) :
    decodeHitsLoop total (v :: rest) docs ls =
      decodeHitsLoop total rest (docs ++ [u]) sv := by
  rw [entrySort?, Option.bind_eq_some] at hsort
  obtain ⟨vo, hvo, hsort⟩ := hsort
  rw [Option.bind_eq_some] at hsort
  obtain ⟨sarr, hsarr, hsort⟩ := hsort
  rw [Option.bind_eq_some] at hsort
  obtain ⟨s0, hs0, hsort⟩ := hsort
  rw [entryUser?, entrySourceObj?, hvo, Option.some_bind, Option.bind_eq_some] at huser
  obtain ⟨so, hso, huser⟩ := huser
  simp only [decodeHitsLoop, hvo, hsarr, hs0, hsort, hso, huser]

lemma decodeHitsLoop_step_softfail (total : ℤ) (v : Json) (rest : List Json)
    (docs : List User) (ls : ℚ)
    (hsort : (entrySort? v).isSome) (hsrc : (entrySourceObj? v).isSome)
    (hfail : entryUser? v = none) :
    decodeHitsLoop total (v :: rest) docs ls = .ok ⟨docs, total, 0⟩ := by
  obtain ⟨sv, hsv⟩ := Option.isSome_iff_exists.mp hsort
  obtain ⟨so, hsov⟩ := Option.isSome_iff_exists.mp hsrc
  rw [entrySort?, Option.bind_eq_some] at hsv
  obtain ⟨vo, hvo, hsv⟩ := hsv
  rw [Option.bind_eq_some] at hsv
  obtain ⟨sarr, hsarr, hsv⟩ := hsv
  rw [Option.bind_eq_some] at hsv
  obtain ⟨s0, hs0, hsv⟩ := hsv
  rw [entrySourceObj?, hvo, Option.some_bind] at hsov
  rw [entryUser?, entrySourceObj?, hvo, Option.some_bind, hsov, Option.some_bind] at hfail
  simp only [decodeHitsLoop, hvo, hsarr, hs0, hsv, hsov, hfail]

lemma decodeHitsLoop_truncates (total : ℤ) :
    ∀ (pre : List Json) (v : Json) (post : List Json) (docs : List User) (ls : ℚ),
    (∀ u ∈ pre, (entrySort? u).isSome ∧ (entryUser? u).isSome) →
    (entrySort? v).isSome → (entrySourceObj? v).isSome → entryUser? v = none →
    decodeHitsLoop total (pre ++ v :: post) docs ls =
      .ok ⟨docs ++ pre.filterMap entryUser?, total, 0⟩ := by
  intro pre
  induction pre with
  | nil =>
    intro v post docs ls _ h1 h2 h3
    rw [List.nil_append, decodeHitsLoop_step_softfail total v post docs ls h1 h2 h3]
    simp
  | cons w pre ih =>
    intro v post docs ls hok h1 h2 h3
    obtain ⟨hws, hwu⟩ := hok w (by simp)
    obtain ⟨sv, hsv⟩ := Option.isSome_iff_exists.mp hws
    obtain ⟨u, hu⟩ := Option.isSome_iff_exists.mp hwu
    rw [List.cons_append, decodeHitsLoop_step_ok total w _ docs ls sv u hsv hu,
        ih v post (docs ++ [u]) sv (fun z hz => hok z (by simp [hz])) h1 h2 h3]
    simp [List.filterMap_cons, hu, List.append_assoc]

lemma decodeHitsLoop_all_ok (total : ℤ) :
    ∀ (l : List Json) (docs : List User) (ls : ℚ),
    (∀ u ∈ l, (entrySort? u).isSome ∧ (entryUser? u).isSome) →
    decodeHitsLoop total l docs ls =
      .ok ⟨docs ++ l.filterMap entryUser?, total, lastSortAux ls l⟩ := by
  intro l
  induction l with
  | nil =>
    intro docs ls _
    simp [decodeHitsLoop, lastSortAux]
  | cons w t ih =>
    intro docs ls hok
    obtain ⟨hws, hwu⟩ := hok w (by simp)
    obtain ⟨sv, hsv⟩ := Option.isSome_iff_exists.mp hws
    obtain ⟨u, hu⟩ := Option.isSome_iff_exists.mp hwu
    rw [decodeHitsLoop_step_ok total w t docs ls sv u hsv hu,
        ih (docs ++ [u]) sv (fun z hz => hok z (by simp [hz]))]
    simp [List.filterMap_cons, hu, List.append_assoc, lastSortAux,
          List.foldl_cons, hsv]

lemma lastSortAux_getLast : ∀ (l : List Json) (vlast : Json) (ls sv : ℚ),
    l.getLast? = some vlast → entrySort? vlast = some sv →
    lastSortAux ls l = sv := by
  intro l
  induction l with
  | nil => intro vlast ls sv h _; simp at h
  | cons w t ih =>
    intro vlast ls sv hlast hsort
    cases t with
    | nil =>
      rw [List.getLast?_singleton] at hlast
      injection hlast with hlast
      subst hlast
      simp [lastSortAux, hsort]
    | cons x xs =>
      rw [List.getLast?_cons_cons] at hlast
      have hstep : lastSortAux ls (w :: x :: xs) =
          lastSortAux ((entrySort? w).getD ls) (x :: xs) := by
        simp [lastSortAux, List.foldl_cons]
      rw [hstep, ih vlast _ sv hlast hsort]

lemma filterMap_entryUser_length : ∀ (l : List Json),
    (∀ u ∈ l, (entryUser? u).isSome) →
    (l.filterMap entryUser?).length = l.length := by
  intro l
  induction l with
  | nil => intro _; rfl
  | cons w t ih =>
    intro h
    obtain ⟨u, hu⟩ := Option.isSome_iff_exists.mp (h w (by simp))
    simp [List.filterMap_cons, hu, ih (fun z hz => h z (by simp [hz]))]

lemma Load_valid_ok (r : List (String × Json)) (res : SearchResult)
    (h : decodeSearchBody r = .ok res) :
    Load ⟨false, false, false, .valid r⟩ = .ret res none := by
  simp [Load, h]

lemma decodeSearchBody_loop (r ho tobj : List (String × Json)) (q : ℚ)
    (l : List Json)
    (h1 : asObj (mget r "hits") = some ho)
    (h2 : asObj (mget ho "total") = some tobj)
    (h3 : asNum (mget tobj "value") = some q)
    (h4 : truncQ q ≠ 0)
    (h5 : asArr (mget ho "hits") = some l) :
    decodeSearchBody r = decodeHitsLoop (truncQ q) l [] 0 := by
  simp only [decodeSearchBody, h1, h2, h3, h5, if_neg h4]

/-! ### Pagination-driver lemmas -/

lemma offsFrom_stop (size bound i : ℕ) (h : ¬(0 < size ∧ i < bound)) :
    offsFrom size bound i = [] := by
  rw [offsFrom, dif_neg h]

lemma offsFrom_go (size bound i : ℕ) (h : 0 < size ∧ i < bound) :
    offsFrom size bound i = i :: offsFrom size bound (i + size) := by
  rw [offsFrom]
  rw [dif_pos h]

lemma ceil_div_rec (size d : ℕ) (hs : 0 < size) (hd : 0 < d) :
    (d + size - 1) / size = (d - size + size - 1) / size + 1 := by
  rcases le_or_lt d size with hle | hlt
  · have h1 : d - size = 0 := by omega
    rw [h1, Nat.zero_add]
    have h2 : (size - 1) / size = 0 := Nat.div_eq_of_lt (by omega)
    rw [h2]
    have h3 : d + size - 1 = (d - 1) + size := by omega
    rw [h3, Nat.add_div_right _ hs]
    have h4 : (d - 1) / size = 0 := Nat.div_eq_of_lt (by omega)
    omega
  · have h3 : d + size - 1 = (d - 1) + size := by omega
    have h5 : d - size + size - 1 = d - 1 := by omega
    rw [h3, h5, Nat.add_div_right _ hs]

lemma offsFrom_eq_range (size : ℕ) (hs : 0 < size) :
    ∀ (fuel bound i : ℕ), bound - i ≤ fuel →
    offsFrom size bound i =
      (List.range ((bound - i + size - 1) / size)).map (fun k => i + k * size) := by
  intro fuel
  induction fuel with
  | zero =>
    intro bound i h
    rw [offsFrom_stop _ _ _ (by omega)]
    have h0 : bound - i = 0 := by omega
    rw [h0]
    have h1 : (0 + size - 1) / size = 0 := Nat.div_eq_of_lt (by omega)
    rw [h1]
    rfl
  | succ fuel ih =>
    intro bound i h
    by_cases hc : i < bound
    · rw [offsFrom_go _ _ _ ⟨hs, hc⟩, ih bound (i + size) (by omega)]
      have hd : 0 < bound - i := by omega
      have hsub : bound - (i + size) = bound - i - size := by omega
      rw [hsub, ceil_div_rec size (bound - i) hs hd, List.range_succ_eq_map]
      simp only [List.map_cons, List.map_map]
      congr 1
      · omega
      · apply List.map_congr_left
        intro k _
        simp only [Function.comp_apply, Nat.succ_eq_add_one]
        ring
    · rw [offsFrom_stop _ _ _ (by omega)]
      have h0 : bound - i = 0 := by omega
      rw [h0]
      have h1 : (0 + size - 1) / size = 0 := Nat.div_eq_of_lt (by omega)
      rw [h1]
      rfl

lemma loadSimplePaginationLoop_pure (pages : ℕ → List User) (size : ℕ)
    (hs : 0 < size) :
    ∀ (fuel bound i : ℕ) (acc : List User), bound - i ≤ fuel →
    loadSimplePaginationLoop (fun n => some (pages n)) size bound i acc =
      (some (acc ++ ((offsFrom size bound i).map pages).flatten),
       offsFrom size bound i) := by
  intro fuel
  induction fuel with
  | zero =>
    intro bound i acc h
    rw [loadSimplePaginationLoop, dif_neg (by omega : ¬(0 < size ∧ i < bound)),
        offsFrom_stop _ _ _ (by omega)]
    simp
  | succ fuel ih =>
    intro bound i acc h
    by_cases hc : i < bound
    · rw [loadSimplePaginationLoop, dif_pos (⟨hs, hc⟩ : 0 < size ∧ i < bound)]
      simp only
      rw [ih bound (i + size) (acc ++ pages i) (by omega)]
      rw [offsFrom_go _ _ _ ⟨hs, hc⟩]
      simp [List.append_assoc]
    · rw [loadSimplePaginationLoop, dif_neg (by omega : ¬(0 < size ∧ i < bound)),
          offsFrom_stop _ _ _ (by omega)]
      simp

lemma cursorLoop_trace_ne_nil (loadO : ℕ → ℕ → ℚ → SearchResult × Bool)
    (n : ℕ) (ls : ℚ) (acc : List User) :
    (cursorLoop loadO (n + 1) ls acc).2 ≠ [] := by
  simp only [cursorLoop]
  by_cases hb : (loadO 0 10 ls).2
  · simp [hb]
  · simp [hb]

/-! ### Claim theorems -/

/-- C1, counterexample: a decoded envelope with two entries in `hits.hits`
whose first entry fails the document decode.  The claim says the returned
cursor equals the first sort element of the last entry (here 2) independently
of the earlier decode failure; `Load` in fact returns the truncation result
with `LastSort = 0`, because the truncation return paths never set it. -/
theorem load_lastSort_counterexample :
    Load ⟨false, false, false, .valid (mkEnvelope 2 [badSourceEntry, goodEntryB])⟩ =
      .ret ⟨[], 2, 0⟩ none ∧
    [badSourceEntry, goodEntryB].getLast? = some goodEntryB ∧
    entrySort? goodEntryB = some 2 ∧
    (0 : ℚ) ≠ 2 :=
  ⟨rfl, rfl, rfl, by norm_num⟩

/-- C1, amended: for a decoded envelope with a non-zero converted total and a
`hits.hits` array all of whose entries decode fully, the Page returned by
`Load` carries as `LastSort` the first element of the sort-key array of the
last entry; when a per-document decode failure occurs, the page is instead
truncated with `LastSort = 0`. -/
theorem load_lastSort_full_decode (r ho tobj : List (String × Json)) (q : ℚ)
    (l : List Json) (vlast : Json) (sv : ℚ)
    (h1 : asObj (mget r "hits") = some ho)
    (h2 : asObj (mget ho "total") = some tobj)
    (h3 : asNum (mget tobj "value") = some q)
    (h4 : truncQ q ≠ 0)
    (h5 : asArr (mget ho "hits") = some l)
    (hok : ∀ v ∈ l, (entrySort? v).isSome ∧ (entryUser? v).isSome)
    (hlast : l.getLast? = some vlast)
    (hsv : entrySort? vlast = some sv) :
    Load ⟨false, false, false, .valid r⟩ =
      .ret ⟨l.filterMap entryUser?, truncQ q, sv⟩ none := by
  apply Load_valid_ok
  rw [decodeSearchBody_loop r ho tobj q l h1 h2 h3 h4 h5,
      decodeHitsLoop_all_ok (truncQ q) l [] 0 hok,
      lastSortAux_getLast l vlast 0 sv hlast hsv]
  simp

/-- Witness for C1 at a concrete envelope with two fully decodable entries. -/
theorem load_lastSort_full_decode_witness :
    Load ⟨false, false, false, .valid (mkEnvelope 2 [goodEntryA, goodEntryB])⟩ =
      .ret ⟨[⟨0, GoTime.goZero, "a"⟩, ⟨0, GoTime.goZero, "b"⟩], 2, 2⟩ none :=
  load_lastSort_full_decode (mkEnvelope 2 [goodEntryA, goodEntryB])
    [("total", .obj [("value", .num 2)]), ("hits", .arr [goodEntryA, goodEntryB])]
    [("value", .num 2)] 2 [goodEntryA, goodEntryB] goodEntryB 2
    rfl rfl rfl (by decide) rfl (by decide) rfl rfl

/-- C2: a decoded envelope with non-zero total whose entries are `pre` (all
fully decodable), then a failing entry `v`, then arbitrary remaining entries:
`Load` returns, with no error, exactly the documents of `pre` together with
the envelope's converted total; the entries after `v` are not processed, and
the count of returned documents equals the count of entries before `v`. -/
theorem load_truncated_page (r ho tobj : List (String × Json)) (q : ℚ)
    (pre post : List Json) (v : Json)
    (h1 : asObj (mget r "hits") = some ho)
    (h2 : asObj (mget ho "total") = some tobj)
    (h3 : asNum (mget tobj "value") = some q)
    (h4 : truncQ q ≠ 0)
    (h5 : asArr (mget ho "hits") = some (pre ++ v :: post))
    (hok : ∀ u ∈ pre, (entrySort? u).isSome ∧ (entryUser? u).isSome)
    (hvs : (entrySort? v).isSome)
    (hvso : (entrySourceObj? v).isSome)
    (hvfail : entryUser? v = none) :
    Load ⟨false, false, false, .valid r⟩ =
      .ret ⟨pre.filterMap entryUser?, truncQ q, 0⟩ none ∧
    (pre.filterMap entryUser?).length = pre.length := by
  constructor
  · apply Load_valid_ok
    rw [decodeSearchBody_loop r ho tobj q _ h1 h2 h3 h4 h5,
        decodeHitsLoop_truncates (truncQ q) pre v post [] 0 hok hvs hvso hvfail]
    simp
  · exact filterMap_entryUser_length pre (fun u hu => (hok u hu).2)

/-- Witness for C2: one decodable entry followed by a failing one. -/
theorem load_truncated_page_witness :
    (Load ⟨false, false, false, .valid (mkEnvelope 2 [goodEntryA, badEntryLast])⟩ =
      .ret ⟨[⟨0, GoTime.goZero, "a"⟩], 2, 0⟩ none) ∧
    ([goodEntryA].filterMap entryUser?).length = [goodEntryA].length :=
  load_truncated_page (mkEnvelope 2 [goodEntryA, badEntryLast])
    [("total", .obj [("value", .num 2)]), ("hits", .arr [goodEntryA, badEntryLast])]
    [("value", .num 2)] 2 [goodEntryA] [] badEntryLast
    rfl rfl rfl (by decide) rfl (by decide) (by decide) (by decide) rfl

/-- C3, counterexample: a success-status envelope that decodes into a map but
whose `hits.total` object has no `value` field.  The claim says `Load` yields
a decode error with a zero Page; `Load` in fact panics on the failed type
assertion and never reaches a return. -/
theorem load_missing_total_counterexample :
    Load ⟨false, false, false, .valid [("hits", Json.obj [("total", Json.obj [])])]⟩ =
      .panic ∧
    LoadOutcome.panic ≠ .ret ⟨[], 0, 0⟩ (some .parseResponseBody) :=
  ⟨rfl, by decide⟩

/-- C3, amended: whenever the nested `hits.total.value` path of a decoded
success-status envelope is absent or of the wrong shape, `Load` panics on an
unchecked type assertion — it neither returns an error value nor silently
treats the malformed envelope as zero total hits. -/
theorem load_missing_total_panics (r : List (String × Json))
    (h : totalValuePath r = none) :
    Load ⟨false, false, false, .valid r⟩ = .panic := by
  rw [totalValuePath] at h
  cases h1 : asObj (mget r "hits") with
  | none => simp [Load, decodeSearchBody, h1]
  | some ho =>
    rw [h1, Option.some_bind] at h
    cases h2 : asObj (mget ho "total") with
    | none => simp [Load, decodeSearchBody, h1, h2]
    | some tobj =>
      rw [h2, Option.some_bind] at h
      simp [Load, decodeSearchBody, h1, h2, h]

/-- Witness for C3 at the concrete malformed envelope. -/
theorem load_missing_total_panics_witness :
    Load ⟨false, false, false,
      .valid [("hits", Json.obj [("total", Json.obj [("value", Json.str "x")])])]⟩ =
      .panic :=
  load_missing_total_panics
    [("hits", Json.obj [("total", Json.obj [("value", Json.str "x")])])] rfl

/-- C4: every `Load` query carries the ascending sort on `ID`; with a non-zero
cursor the query carries `search_after` seeded with the cursor, the issued
request passes no `from` parameter (the offset argument is ignored), and the
query body has no `from` key either. -/
theorem load_query_construction (dflt idx : String) (fromArg size : ℤ)
    (cursor : ℚ) :
    (buildLoadQuery cursor).lookup "sort" =
      some (.arr [.obj [("ID", .obj [("order", .str "asc")])]]) ∧
    (cursor ≠ 0 →
      (buildLoadQuery cursor).lookup "search_after" = some (.arr [.num cursor]) ∧
      (issueLoadSearch dflt idx fromArg size cursor).fromParam = none ∧
      (buildLoadQuery cursor).lookup "from" = none) := by
  constructor
  · simp only [buildLoadQuery]
    by_cases h0 : cursor ≠ 0
    · rw [if_pos h0]; rfl
    · rw [if_neg h0]; rfl
  · intro h0
    refine ⟨?_, ?_, ?_⟩
    · simp only [buildLoadQuery]
      rw [if_pos h0]
      rfl
    · simp only [issueLoadSearch]
      rw [if_pos h0]
    · simp only [buildLoadQuery]
      rw [if_pos h0]
      rfl

/-- Witness for C4 at cursor 5. -/
theorem load_query_construction_witness :
    ((buildLoadQuery 5).lookup "sort" =
      some (.arr [.obj [("ID", .obj [("order", .str "asc")])]])) ∧
    ((buildLoadQuery 5).lookup "search_after" = some (.arr [.num 5]) ∧
     (issueLoadSearch "users" "" 3 10 5).fromParam = none ∧
     (buildLoadQuery 5).lookup "from" = none) :=
  ⟨(load_query_construction "users" "" 3 10 5).1,
   (load_query_construction "users" "" 3 10 5).2 (by norm_num)⟩

/-- C5: whenever the decoded envelope's `hits.total.value` is zero, `Load`
returns the empty `SearchResult` (no documents, zero total, zero cursor) with
no error, whatever else the envelope contains. -/
theorem load_zero_total_page (r : List (String × Json))
    (h : totalValuePath r = some 0) :
    Load ⟨false, false, false, .valid r⟩ = .ret ⟨[], 0, 0⟩ none := by
  rw [totalValuePath, Option.bind_eq_some] at h
  obtain ⟨ho, h1, h⟩ := h
  rw [Option.bind_eq_some] at h
  obtain ⟨tobj, h2, h3⟩ := h
  have htr : truncQ 0 = 0 := rfl
  simp [Load, decodeSearchBody, h1, h2, h3, htr]

/-- Witness for C5 at a zero-total envelope with unrelated noise in the hit
list. -/
theorem load_zero_total_page_witness :
    Load ⟨false, false, false, .valid (mkEnvelope 0 [Json.str "noise"])⟩ =
      .ret ⟨[], 0, 0⟩ none :=
  load_zero_total_page (mkEnvelope 0 [Json.str "noise"]) rfl

/-- C6: for every page oracle and every bound and positive page size, the
offset-strategy loop requests exactly the offsets `0, size, 2·size, …` —
`⌈bound/size⌉` of them — and accumulates exactly the concatenation of the
fetched pages in fetch order. -/
theorem offset_pagination_spec (pages : ℕ → List User) (size bound : ℕ)
    (hs : 0 < size) :
    loadSimplePaginationLoop (fun n => some (pages n)) size bound 0 [] =
      (some (((offsFrom size bound 0).map pages).flatten), offsFrom size bound 0) ∧
    offsFrom size bound 0 =
      (List.range ((bound + size - 1) / size)).map (fun k => k * size) ∧
    (offsFrom size bound 0).length = (bound + size - 1) / size := by
  have h1 := loadSimplePaginationLoop_pure pages size hs bound bound 0 [] (by omega)
  have h2 := offsFrom_eq_range size hs bound bound 0 (by omega)
  rw [Nat.sub_zero] at h2
  refine ⟨by simpa using h1, ?_, ?_⟩
  · rw [h2]
    apply List.map_congr_left
    intro k _
    omega
  · rw [h2, List.length_map, List.length_range]

/-- Witness for C6 with the source's constants (size 10, bound 100) and empty
pages. -/
theorem offset_pagination_spec_witness :
    (0 : ℕ) < 10 ∧
    (loadSimplePaginationLoop (fun n => some ((fun _ => ([] : List User)) n))
        10 100 0 [] =
      (some (((offsFrom 10 100 0).map (fun _ => ([] : List User))).flatten),
       offsFrom 10 100 0)) ∧
    (offsFrom 10 100 0).length = (100 + 10 - 1) / 10 :=
  ⟨by norm_num,
   (offset_pagination_spec (fun _ => []) 10 100 (by norm_num)).1,
   (offset_pagination_spec (fun _ => []) 10 100 (by norm_num)).2.2⟩

/-- C7, counterexample: a fetch oracle that reports an error on every call —
in particular on the initial unset-cursor fetch.  The claim says an error on
the initial fetch aborts the pagination with no subsequent fetch; the driver
in fact discards the initial fetch's error (`initRes, _ :=`) and issues the
first loop fetch anyway, as the recorded trace of two fetches shows. -/
theorem cursor_pagination_counterexample :
    (alwaysErrLoad 0 10 0).2 = true ∧
    (cursorPaginate alwaysErrLoad).2 = [(0, 10, 0), (0, 10, 0)] := by
  decide

/-- C7, amended: an error returned by a fetch inside the iteration loop aborts
the whole pagination fail-fast — that fetch is the last one recorded and no
result set is produced; the initial fetch's error, however, is discarded: the
driver always proceeds to the loop and issues at least one further fetch. -/
theorem cursor_pagination_fail_fast (loadO : ℕ → ℕ → ℚ → SearchResult × Bool)
    (n : ℕ) (ls : ℚ) (acc : List User)
    (herr : (loadO 0 10 ls).2 = true) :
    cursorLoop loadO (n + 1) ls acc = (none, [(0, 10, ls)]) ∧
    2 ≤ (cursorPaginate loadO).2.length := by
  constructor
  · simp [cursorLoop, herr]
  · simp only [cursorPaginate]
    rw [List.length_cons]
    have h9 := cursorLoop_trace_ne_nil loadO 8
      ((loadO 0 10 0).1.LastSort) ((loadO 0 10 0).1.Users)
    norm_num at h9
    have := List.length_pos.mpr h9
    omega

/-- Witness for C7 at the always-failing oracle. -/
theorem cursor_pagination_fail_fast_witness :
    (alwaysErrLoad 0 10 7).2 = true ∧
    (cursorLoop alwaysErrLoad (0 + 1) 7 [] = (none, [(0, 10, 7)]) ∧
     2 ≤ (cursorPaginate alwaysErrLoad).2.length) :=
  ⟨by decide, cursor_pagination_fail_fast alwaysErrLoad 0 7 [] (by decide)⟩

/-- C8: encoding a `User` to its JSON wire form (`ID`, `CreatedAt`, `Username`,
with the timestamp in RFC 3339 Nano form) and decoding those fields back
through the typed-document decoder yields the identical `User` — identifier,
timestamp (with its nanosecond precision and offset), and username all
preserved — for every timestamp Go can marshal. -/
theorem user_json_round_trip (u : User) (hv : u.CreatedAt.valid) :
    decodeUserSource (encodeUser u) = some u := by
  obtain ⟨uid, uct, uname⟩ := u
  simp only at hv
  have h1 : decodeUserField "ID" (.num (uid : ℚ)) ⟨0, GoTime.goZero, ""⟩ =
      some ⟨(uid : ℚ).num, GoTime.goZero, ""⟩ := by
    have hstep : decodeUserField "ID" (.num (uid : ℚ)) ⟨0, GoTime.goZero, ""⟩ =
        if (uid : ℚ).den = 1 then some ⟨(uid : ℚ).num, GoTime.goZero, ""⟩
        else none := rfl
    rw [hstep, if_pos (Rat.den_intCast uid)]
  rw [Rat.num_intCast] at h1
  have h2 : decodeUserField "CreatedAt" (.str (formatRFC3339Nano uct))
      ⟨uid, GoTime.goZero, ""⟩ = some ⟨uid, uct, ""⟩ := by
    have hstep : decodeUserField "CreatedAt" (.str (formatRFC3339Nano uct))
        ⟨uid, GoTime.goZero, ""⟩ =
        match parseRFC3339 (formatRFC3339Nano uct) with
        | some tm => some ⟨uid, tm, ""⟩
        | none => none := rfl
    rw [hstep, parseRFC3339_format uct hv]
  have h3 : decodeUserField "Username" (.str uname) ⟨uid, uct, ""⟩ =
      some ⟨uid, uct, uname⟩ := rfl
  simp only [encodeUser, decodeUserSource, decodeUserFields, h1, h2, h3]

/-- Witness for C8 at a concrete user with sub-second timestamp precision and
a non-trivial offset. -/
theorem user_json_round_trip_witness :
    decodeUserSource (encodeUser
        ⟨42, ⟨2023, 5, 17, 10, 30, 5, 123000000, 180⟩, "alice"⟩) =
      some ⟨42, ⟨2023, 5, 17, 10, 30, 5, 123000000, 180⟩, "alice"⟩ :=
  user_json_round_trip ⟨42, ⟨2023, 5, 17, 10, 30, 5, 123000000, 180⟩, "alice"⟩
    (by decide)

/-- C9: every error return of `Load` — query encoding, transport, engine
failure status, or envelope decode — carries the zero `SearchResult`: empty
document list, zero total, zero cursor. -/
theorem load_error_zero_result (env : LoadEnv) (res : SearchResult) (e : LoadErr)
    (h : Load env = .ret res (some e)) : res = ⟨[], 0, 0⟩ := by
  obtain ⟨ef, tf, se, body⟩ := env
  cases body with
  | invalid =>
    simp only [Load] at h
    split_ifs at h <;> (injection h with hr he; exact hr.symm)
  | valid fields =>
    simp only [Load] at h
    split_ifs at h
    · injection h with hr he; exact hr.symm
    · injection h with hr he; exact hr.symm
    · injection h with hr he; exact hr.symm
    · cases hd : decodeSearchBody fields with
      | panic =>
        rw [hd] at h
        have h2 : LoadOutcome.panic = .ret res (some e) := h
        exact LoadOutcome.noConfusion h2
      | ok res2 =>
        rw [hd] at h
        have h2 : LoadOutcome.ret res2 none = .ret res (some e) := h
        injection h2 with hr he
        exact Option.noConfusion he

/-- Witness for C9 at a concrete failing call (query-encoding failure). -/
theorem load_error_zero_result_witness :
    Load ⟨true, false, false, .invalid⟩ = .ret ⟨[], 0, 0⟩ (some .encodeQuery) ∧
    (⟨[], 0, 0⟩ : SearchResult) = ⟨[], 0, 0⟩ :=
  ⟨rfl, load_error_zero_result ⟨true, false, false, .invalid⟩ ⟨[], 0, 0⟩
    .encodeQuery rfl⟩

/-- C10: whenever the hit-iteration loop truncates at an entry whose `_source`
fails the typed decode, the returned partial page carries `LastSort = 0`
whatever sort values were seen before — the truncation return paths never set
the cursor, so a caller chaining it restarts from the beginning. -/
theorem truncation_zero_cursor (total : ℤ) (pre : List Json) (v : Json)
    (post : List Json) (docs : List User) (ls : ℚ)
    (hok : ∀ u ∈ pre, (entrySort? u).isSome ∧ (entryUser? u).isSome)
    (hvs : (entrySort? v).isSome)
    (hvso : (entrySourceObj? v).isSome)
    (hvfail : entryUser? v = none) :
    decodeHitsLoop total (pre ++ v :: post) docs ls =
      .ok ⟨docs ++ pre.filterMap entryUser?, total, 0⟩ :=
  decodeHitsLoop_truncates total pre v post docs ls hok hvs hvso hvfail

/-- Witness for C10 with a non-zero incoming `lastSort` accumulator, showing
the truncation return discards it. -/
theorem truncation_zero_cursor_witness :
    decodeHitsLoop 7 ([goodEntryA] ++ badEntryLast :: []) [⟨5, GoTime.goZero, "x"⟩] 99 =
      .ok ⟨[⟨5, GoTime.goZero, "x"⟩, ⟨0, GoTime.goZero, "a"⟩], 7, 0⟩ :=
  truncation_zero_cursor 7 [goodEntryA] badEntryLast [] [⟨5, GoTime.goZero, "x"⟩] 99
    (by decide) (by decide) (by decide) rfl

end GoElastic
